import Mathlib

/-!
# Verification of the `PortfolioManager` controller (`main.js`)

This file gives a shallow embedding, in Lean 4, of the client-side animation
controller `PortfolioManager` of the portfolio repository, and proves the
behavioural properties stated in its specification.

The embedding is organised in several small models, each translated directly
from the source:

* `particleCount` — the particle-count computation of `createParticles()`
  (main.js lines 73–111) together with its configuration object
  (lines 31–46).  JavaScript numbers are modelled as exact rationals (`ℚ`);
  all arithmetic appearing here (`50 / 2`, `50 * 1.5`) is exact in floats,
  so `ℚ` is a faithful carrier.
* `validateForm` / `emailRegexTest` — the pure form validator
  (lines 325–342), with `FormData.get` results modelled as `Option String`
  (`null` ↦ `none`) and the regex `/^[^\s@]+@[^\s@]+\.[^\s@]+$/` rendered as
  an executable matcher over `List Char`.
* `MState` / `Step` — an event-loop machine for the typing animation
  (`typeWriter`, lines 116–147, and `initTypingAnimation`, lines 152–196)
  together with the parts of `init()`/`destroy()` and of the
  `visibilitychange` handler that touch it.  A cycle whose `phase` is
  `revealing` has exactly one per-character `setTimeout` pending; `pausing`
  means the between-texts timeout is pending; `scheduled` means the
  initial-delay timeout is pending; `stopped` means no callback of that
  cycle is scheduled.
* `PMState` — the controller's own mutable fields, with `initFn`
  (lines 443–490), `destroyFn` (lines 495–524) and `visFn` (the
  `visibilitychange` listener, lines 541–551) as straight-line state
  transformers.  Window listeners are modelled as lists of handler
  identities; `Date.now()` and the bound handler closures are modelled by a
  fresh-identity counter.
* `ScrollState` — the `requestAnimationFrame` coalescing of
  `handleScroll()` (lines 201–210).
* `runInitSteps` / `submitEntry` / `getElement` — the exception structure
  of the entry points: a fallible sub-step is an oracle value in
  `Except String Unit`, and the `try`/`catch` placement is taken from the
  source.
-/

/-! ## Particle count (`createParticles`, main.js 73–111; config 31–46) -/

/-- The `config.particles` object of the controller (main.js lines 31–36). -/
structure ParticleConfig where
  count : ℚ
  maxCount : ℚ
  minCount : ℚ
deriving DecidableEq, Repr

/-- The default configuration from the constructor: `{count: 50, maxCount: 100, minCount: 20}`. -/
def particlesConfig : ParticleConfig := { count := 50, maxCount := 100, minCount := 20 }

/-- The particle-count computation of `createParticles()` (main.js lines 78–87):
`isLowEndDevice = devicePixelRatio < 2 && screenWidth < 1024`; low-end devices
get `max(minCount, count / 2)`, very wide viewports (`> 1920`) get
`min(maxCount, count * 1.5)`, otherwise the base `count`. -/
def particleCount (cfg : ParticleConfig) (screenWidth : ℕ) (devicePixelRatio : ℚ) : ℚ :=
  if devicePixelRatio < 2 ∧ screenWidth < 1024 then
    max cfg.minCount (cfg.count / 2)
  else if screenWidth > 1920 then
    min cfg.maxCount (cfg.count * 1.5)
  else
    cfg.count

/-! ## Form validation (`validateForm`, main.js 325–342) -/

/-- A character admissible in every part of the email regex: the class
`[^\s@]` (neither whitespace nor `@`). -/
def okChar (c : Char) : Bool :=
  !c.isWhitespace && !(c == '@')

/-- `interiorDot cs = true` iff `cs` has a `'.'` at some position that is
neither the first nor the last of `cs`.  This is the shape `[^\s@]+\.[^\s@]+`
imposes on the domain part once all of its characters are known to be in
`[^\s@]` (note `[^\s@]` itself accepts `'.'`). -/
def interiorDot : List Char → Bool
  | [] => false
  | [_] => false
  | [_, _] => false
  | _ :: b :: c :: t => (b == '.') || interiorDot (b :: c :: t)

/-- The JavaScript regex test `/^[^\s@]+@[^\s@]+\.[^\s@]+$/.test s`
(main.js line 335–336).  The leading `[^\s@]+` can only stop at the first
character outside the class, which must then be the literal `@`; the
remainder must be non-empty, entirely inside `[^\s@]`, and decomposable as
`[^\s@]+ '.' [^\s@]+`, i.e. contain a dot at an interior position. -/
def emailRegexTest (cs : List Char) : Bool :=
  !(cs.takeWhile okChar).isEmpty && ((cs.dropWhile okChar).head? == some '@')
    && (cs.dropWhile okChar).tail.all okChar && interiorDot (cs.dropWhile okChar).tail

/-- JavaScript `String.prototype.trim()` on the characters of a string:
strip whitespace from both ends. -/
def jsTrim (cs : List Char) : List Char :=
  ((cs.dropWhile Char.isWhitespace).reverse.dropWhile Char.isWhitespace).reverse

/-- `validateForm(formData)` (main.js lines 325–342).  `formData.get(k)` is
modelled as an `Option String` (`none` for a missing field); `?.trim()`
then yields `none`, and the falsy check `!name` rejects both a missing
field and one that trims to the empty string.  When all three fields pass
the truthiness check the email must pass the regex test. -/
def validateForm (name email message : Option String) : Bool :=
  match name.map (fun s => jsTrim s.data), email.map (fun s => jsTrim s.data),
        message.map (fun s => jsTrim s.data) with
  | some n, some e, some m =>
    if n.isEmpty || e.isEmpty || m.isEmpty then false
    else emailRegexTest e
  | _, _, _ => false

/-- Specification-side reading of the email pattern: the string splits as
`local-part ++ "@" ++ domain ++ "." ++ tld` with all three parts non-empty
and no whitespace and no further `@` anywhere. -/
def EmailShape (cs : List Char) : Prop :=
  ∃ L M R : List Char,
    cs = L ++ '@' :: (M ++ '.' :: R) ∧ L ≠ [] ∧ M ≠ [] ∧ R ≠ [] ∧
    (∀ c ∈ L, c.isWhitespace = false ∧ c ≠ '@') ∧
    (∀ c ∈ M, c.isWhitespace = false ∧ c ≠ '@') ∧
    (∀ c ∈ R, c.isWhitespace = false ∧ c ≠ '@')

/-- Specification-side reading of the truthiness check on a form field:
the field is present and non-empty after trimming. -/
def FieldPresent (o : Option String) : Prop :=
  ∃ s : String, o = some s ∧ jsTrim s.data ≠ []

/-! ## Typing animation machine (`typeWriter` 116–147, `initTypingAnimation` 152–196) -/

/-- Scheduling status of one `runCycle` chain started by `initTypingAnimation`.
`scheduled`: the initial-delay `setTimeout` (line 191) is pending.
`revealing`: `typeWriter` is in flight, one per-character `setTimeout`
(line 133) is pending.  `pausing`: the between-texts `setTimeout` (line 182)
is pending.  `stopped`: no callback of this cycle is scheduled any more. -/
inductive Phase
  | scheduled
  | revealing
  | pausing
  | stopped
deriving DecidableEq, Repr

/-- One typing cycle: the closure state of one `initTypingAnimation` call.
`id` is the `animationId` (a `Date.now()` value, modelled as a fresh
identity), `textIdx` is `currentIndex`, `pos` the number of characters of
the current text already written to the element, `aborted` the state of the
`AbortController` created by this cycle's latest `typeWriter` call. -/
structure TypingCycle where
  id : Nat
  textIdx : Nat
  pos : Nat
  aborted : Bool
  phase : Phase
deriving DecidableEq, Repr

/-- The `texts` rotation of `initTypingAnimation` (main.js lines 156–161). -/
def texts : List String :=
  ["Junior Front-end Developer", "React Enthusiast", "Creative Problem Solver", "UI/UX Designer"]

/-- Length of the text a cycle is currently revealing. -/
def textLen (i : Nat) : Nat := (texts.getD i "").length

/-- Whole-controller state as seen by the typing machinery: `destroyed` and
`initialized` flags, the `activeAnimations` set (as a list of ids), all
cycles ever started, `typingController` as the id of the cycle owning the
current `AbortController`, and a fresh-identity counter. -/
structure MState where
  destroyed : Bool
  initialized : Bool
  active : List Nat
  cycles : List TypingCycle
  ctrl : Option Nat
  nextId : Nat
deriving DecidableEq, Repr

/-- The state of a fresh `new PortfolioManager()` (constructor, lines 7–47). -/
def ms0 : MState :=
  { destroyed := false, initialized := false, active := [], cycles := [], ctrl := none, nextId := 0 }

/-- Update the cycle with identity `cid` (all cycle functions preserve `id`,
so with distinct ids this touches exactly the intended closure). -/
def updId (cid : Nat) (f : TypingCycle → TypingCycle) (c : TypingCycle) : TypingCycle :=
  if c.id = cid then f c else c

/-- Effect on the typing machinery of a successful `init()` run
(lines 443–490): `initTypingAnimation` records a fresh `animationId` in
`activeAnimations` (line 165) and schedules `runCycle` after the initial
delay (line 191); `isInitialized` becomes true (line 484).  `isDestroyed`
is *not* touched by `init()`. -/
def initState (s : MState) : MState :=
  { s with
    initialized := true
    cycles := s.cycles ++ [⟨s.nextId, 0, 0, false, Phase.scheduled⟩]
    active := s.active ++ [s.nextId]
    nextId := s.nextId + 1 }

/-- `typingController.abort()` as observed by the owning `typeWriter` call
(lines 132–138): the abort listener clears the pending per-character
timeout and rejects, so a cycle caught mid-reveal returns `false`
immediately and `runCycle` schedules nothing further; a cycle not awaiting
a character timeout only has its (already settled) controller flagged. -/
def abortCycle (c : TypingCycle) : TypingCycle :=
  { c with
    aborted := true
    phase := if c.phase = Phase.revealing then Phase.stopped else c.phase }

/-- `destroy()` (lines 495–524) restricted to the typing machinery: set
`isDestroyed`, abort and null `typingController`, clear `activeAnimations`,
reset `isInitialized`. -/
def destroyState (s : MState) : MState :=
  { destroyed := true
    initialized := false
    active := []
    ctrl := none
    cycles := match s.ctrl with
      | some cid => s.cycles.map (updId cid abortCycle)
      | none => s.cycles
    nextId := s.nextId }

/-- The `visibilitychange` listener (lines 541–551): it directly assigns
`isDestroyed` (true when the tab hides, false when it becomes visible). -/
def setDestroyed (s : MState) (b : Bool) : MState := { s with destroyed := b }

/-- Firing of a cycle's initial-delay timeout (line 191) or between-texts
timeout (line 182).  Both run `runCycle` only when the controller is not
destroyed and (via the guard at line 183 or at line 168) the cycle's id is
still in `activeAnimations`; otherwise nothing further is scheduled.
`runCycle` calls `typeWriter`, which installs a fresh `AbortController`
(lines 122–123), clears the element, and—if the text is non-empty—writes
its first character and schedules the per-character timeout. -/
def fireCycle (destroyed inActive : Bool) (c : TypingCycle) : TypingCycle :=
  if destroyed || !inActive then { c with phase := Phase.stopped }
  else if textLen c.textIdx = 0 then
    { c with aborted := false, pos := 0,
             textIdx := (c.textIdx + 1) % texts.length, phase := Phase.pausing }
  else
    { c with aborted := false, pos := 1, phase := Phase.revealing }

/-- Firing of the pending per-character timeout inside `typeWriter`'s loop
(lines 126–139).  If all characters are out the call returns `true` and
`runCycle` advances the index and schedules the pause (lines 178–186)
unless destroyed; otherwise the loop re-checks the abort signal and the
destroyed flag (line 127) before writing the next character. -/
def charFireCycle (destroyed : Bool) (c : TypingCycle) : TypingCycle :=
  if textLen c.textIdx ≤ c.pos then
    if destroyed then { c with phase := Phase.stopped }
    else { c with textIdx := (c.textIdx + 1) % texts.length, phase := Phase.pausing }
  else if c.aborted || destroyed then { c with phase := Phase.stopped }
  else { c with pos := c.pos + 1 }

/-- State effect of an initial-delay or pause timeout firing for cycle
`cid`: when `typeWriter` is entered it also publishes its fresh controller
in `this.typingController` (line 123). -/
def fireState (s : MState) (cid : Nat) : MState :=
  { s with
    cycles := s.cycles.map (updId cid (fireCycle s.destroyed (decide (cid ∈ s.active))))
    ctrl := if !s.destroyed && decide (cid ∈ s.active) then some cid else s.ctrl }

/-- State effect of a per-character timeout firing for cycle `cid`. -/
def charFireState (s : MState) (cid : Nat) : MState :=
  { s with cycles := s.cycles.map (updId cid (charFireCycle s.destroyed)) }

/-- There is a cycle with identity `cid` in phase `p`. -/
def hasPhase (s : MState) (cid : Nat) (p : Phase) : Prop :=
  ∃ c ∈ s.cycles, c.id = cid ∧ c.phase = p

instance (s : MState) (cid : Nat) (p : Phase) : Decidable (hasPhase s cid p) := by
  unfold hasPhase; infer_instance

/-- Event-loop steps of the typing machinery: the controller's public
operations (`init`, `destroy`), the `visibilitychange` handler, and the
firing of each kind of pending timeout. -/
inductive Step : MState → MState → Prop
  | initE (s : MState) (h : s.initialized = false) : Step s (initState s)
  | destroyE (s : MState) : Step s (destroyState s)
  | hideE (s : MState) : Step s (setDestroyed s true)
  | showE (s : MState) : Step s (setDestroyed s false)
  | startE (s : MState) (cid : Nat) (h : hasPhase s cid Phase.scheduled) : Step s (fireState s cid)
  | pauseE (s : MState) (cid : Nat) (h : hasPhase s cid Phase.pausing) : Step s (fireState s cid)
  | charE (s : MState) (cid : Nat) (h : hasPhase s cid Phase.revealing) : Step s (charFireState s cid)

/-- Reachability by event-loop steps. -/
def Reach : MState → MState → Prop := Relation.ReflTransGen Step

/-- Machine invariant: cycle identities are distinct and below the
fresh-identity counter, the active-animation set holds at most one id and
is empty whenever the controller is uninitialized, and a cycle caught
mid-reveal is exactly the one owning `typingController`, is still in the
active set, and is unaborted. -/
structure MInv (s : MState) : Prop where
  nodup : (s.cycles.map TypingCycle.id).Nodup
  bound : ∀ c ∈ s.cycles, c.id < s.nextId
  activeLen : s.active.length ≤ 1
  activeInit : s.initialized = false → s.active = []
  revCond : ∀ c ∈ s.cycles, c.phase = Phase.revealing →
    c.id ∈ s.active ∧ s.ctrl = some c.id ∧ c.aborted = false

/-- After a cancellation, the cycle with identity `cid` is permanently
stopped with its output frozen at `p0` characters: no cycle with that
identity is in any phase but `stopped`, and the identity is stale (below
the fresh-identity counter), so no later `init()` can reuse it. -/
def FrozenStopped (cid p0 : Nat) (s : MState) : Prop :=
  (∀ c ∈ s.cycles, c.id = cid → c.phase = Phase.stopped ∧ c.pos = p0) ∧ cid < s.nextId

/-! ## Controller field state (`init` 443–490, `destroy` 495–524) -/

/-- The mutable fields of a `PortfolioManager` instance relevant to its
lifecycle (constructor, lines 7–28), plus the window's listener lists.
Handler closures (`this.handleScroll.bind(this)` creates a fresh function
object per `init()`), `AbortController`s and `Date.now()` animation ids are
modelled as fresh numeric identities drawn from `nextId`.
`windowScroll`/`windowResize` are the window's registered scroll/resize
listeners contributed by this controller; `abortedControllers` records every
controller identity on which `abort()` has been called. -/
structure PMState where
  isInitialized : Bool
  isDestroyed : Bool
  activeAnimations : List Nat
  typingController : Option Nat
  abortedControllers : List Nat
  elements : List String
  handlerScroll : Option Nat
  handlerResize : Option Nat
  windowScroll : List Nat
  windowResize : List Nat
  nextId : Nat
deriving DecidableEq, Repr

/-- A freshly constructed `new PortfolioManager()` with no listeners yet. -/
def pmNew : PMState :=
  { isInitialized := false, isDestroyed := false, activeAnimations := [],
    typingController := none, abortedControllers := [], elements := [],
    handlerScroll := none, handlerResize := none,
    windowScroll := [], windowResize := [], nextId := 0 }

/-- `getElement`'s caching assignment (lines 63–65): cache under the id key
(an existing entry would simply be overwritten by the same element). -/
def cacheInsert (l : List String) (k : String) : List String :=
  if k ∈ l then l else l ++ [k]

/-- `init()` (lines 443–490) as a state transformer, assuming all DOM
elements are present and no sub-step throws.  If `isInitialized` is set it
returns at once (lines 444–447, with a warning).  Otherwise it caches
`bgAnimation` (via `createParticles`), `typingText` (via
`initTypingAnimation`, which also records a fresh `animationId` in
`activeAnimations`), `contactForm` and `navbar`, binds fresh scroll/resize
handler closures, registers them on the window (lines 473–478), and sets
`isInitialized` (line 484).  Note that `isDestroyed` is never written. -/
def initFn (s : PMState) : PMState :=
  if s.isInitialized then s
  else
    { s with
      elements := cacheInsert (cacheInsert (cacheInsert
        (cacheInsert s.elements "bgAnimation") "typingText") "contactForm") "navbar"
      activeAnimations := s.activeAnimations ++ [s.nextId]
      handlerScroll := some (s.nextId + 1)
      handlerResize := some (s.nextId + 2)
      windowScroll := s.windowScroll ++ [s.nextId + 1]
      windowResize := s.windowResize ++ [s.nextId + 2]
      isInitialized := true
      nextId := s.nextId + 3 }

/-- `destroy()` (lines 495–524) as a state transformer: set `isDestroyed`,
abort and null `typingController`, clear `activeAnimations`, remove the
recorded scroll/resize handlers from the window (`removeEventListener` on an
absent handler is a no-op, modelled by `List.erase`), clear the element
cache, reset `isInitialized`.  `handlers.scroll`/`handlers.resize`
themselves are *not* nulled by the source. -/
def destroyFn (s : PMState) : PMState :=
  { s with
    isDestroyed := true
    typingController := none
    abortedControllers := match s.typingController with
      | some cid => s.abortedControllers ++ [cid]
      | none => s.abortedControllers
    activeAnimations := []
    windowScroll := match s.handlerScroll with
      | some hd => s.windowScroll.erase hd
      | none => s.windowScroll
    windowResize := match s.handlerResize with
      | some hd => s.windowResize.erase hd
      | none => s.windowResize
    elements := []
    isInitialized := false }

/-- The `visibilitychange` listener (lines 541–551): it assigns
`isDestroyed := true` when the document becomes hidden and
`isDestroyed := false` when it becomes visible again. -/
def visFn (s : PMState) (hidden : Bool) : PMState :=
  { s with isDestroyed := hidden }

/-- `n` rounds of `destroy(); init()` applied to a state. -/
def cyclePairs : Nat → PMState → PMState
  | 0, s => s
  | n + 1, s => cyclePairs n (initFn (destroyFn s))

/-- Listener well-formedness maintained across `init`/`destroy` rounds:
the bound handlers exist and each is the unique listener of its kind on the
window. -/
def GoodListeners (s : PMState) : Prop :=
  ∃ h1 h2 : Nat, s.handlerScroll = some h1 ∧ s.handlerResize = some h2 ∧
    s.windowScroll = [h1] ∧ s.windowResize = [h2] ∧ s.isInitialized = true

/-! ## Frame-coalesced scroll handling (`handleScroll`, main.js 201–210) -/

/-- State of the scroll path: the `scrollTicking` flag, the `isDestroyed`
flag, the number of `requestAnimationFrame` callbacks currently queued for
the next frame, and a count of DOM-update passes performed so far (one pass
= one `updateNavbar()` plus one `revealOnScroll()`, lines 206–207). -/
structure ScrollState where
  scrollTicking : Bool
  destroyed : Bool
  rafQueue : Nat
  domPasses : Nat
deriving DecidableEq, Repr

/-- `handleScroll()` (lines 201–210): bail out when `scrollTicking` is set
or the controller is destroyed; otherwise set the flag and queue one
animation-frame callback. -/
def handleScroll (s : ScrollState) : ScrollState :=
  if s.scrollTicking || s.destroyed then s
  else { s with scrollTicking := true, rafQueue := s.rafQueue + 1 }

/-- The rendered-frame boundary: every queued animation-frame callback runs,
each performing one DOM-update pass and clearing `scrollTicking`
(lines 205–209). -/
def runFrame (s : ScrollState) : ScrollState :=
  { s with domPasses := s.domPasses + s.rafQueue, rafQueue := 0, scrollTicking := false }

/-- A burst of `n` scroll events delivered before the next frame renders. -/
def scrollBurst : Nat → ScrollState → ScrollState
  | 0, s => s
  | n + 1, s => scrollBurst n (handleScroll s)

/-! ## Exception structure of the entry points (`init` 451–489, submit 272–319, `getElement` 52–68) -/

/-- Run `init()`'s setup sub-steps (lines 452–482) in order inside the
single `try` block; the first failure aborts the rest of the sequence. -/
def runInitSteps : List (Except String Unit) → Except String Unit
  | [] => Except.ok ()
  | r :: rs => match r with
    | Except.ok _ => runInitSteps rs
    | Except.error e => Except.error e

/-- `init()`'s exception behaviour: the whole setup sequence sits inside
`try ... catch (error) { console.error(...) }` (lines 451–489), so a
failing sub-step is caught and logged and `init` itself returns normally
(`true` = initialization completed, `false` = caught a failure part-way). -/
def initEntry (steps : List (Except String Unit)) : Except String Bool :=
  match runInitSteps steps with
  | Except.ok _ => Except.ok true
  | Except.error _ => Except.ok false

/-- The contact-form submit handler (lines 272–319): validation failure
returns early; the simulated submission runs inside `try ... catch`, whose
`catch` arm switches the button to the error state and returns normally. -/
def submitEntry (valid : Bool) (send : Except String Unit) : Except String Bool :=
  if valid then
    match send with
    | Except.ok _ => Except.ok true
    | Except.error _ => Except.ok false
  else Except.ok false

/-- `getElement(id)` (lines 52–68) with the DOM modelled as a partial map
from element ids to element identities and the cache as an association
list: a cache hit is returned; otherwise a missing element yields `none`
(with a logged warning, no exception) and a found element is cached. -/
def getElement (dom : String → Option Nat) (cache : List (String × Nat))
    (id : String) : Option Nat × List (String × Nat) :=
  match cache.find? (fun p => p.1 == id) with
  | some p => (some p.2, cache)
  | none => match dom id with
    | some el => (some el, cache ++ [(id, el)])
    | none => (none, cache)

/-- `createParticles()` (lines 73–111) at entry-point granularity: with no
`bgAnimation` element the operation is skipped (line 75) and returns
without touching the DOM; otherwise it computes the particle count. -/
def createParticlesEntry (bg : Option Nat) (screenWidth : Nat)
    (devicePixelRatio : ℚ) : Option ℚ :=
  bg.map (fun _ => particleCount particlesConfig screenWidth devicePixelRatio)

/-! ## Lemmas and claim theorems -/

lemma okChar_iff (c : Char) : okChar c = true ↔ c.isWhitespace = false ∧ c ≠ '@' := by
  simp [okChar]

lemma takeWhile_at_sep (L t : List Char) (hL : ∀ c ∈ L, okChar c = true) :
    (L ++ '@' :: t).takeWhile okChar = L ∧ (L ++ '@' :: t).dropWhile okChar = '@' :: t := by
  induction L with
  | nil => simp [List.takeWhile, List.dropWhile, okChar]
  | cons a l ih =>
    have ha : okChar a = true := hL a (by simp)
    have ih' := ih (fun c hc => hL c (by simp [hc]))
    simp [List.takeWhile_cons, List.dropWhile_cons, ha, ih'.1, ih'.2]

lemma interiorDot_of_decomp :
    ∀ (M R : List Char), M ≠ [] → R ≠ [] → interiorDot (M ++ '.' :: R) = true := by
  intro M
  induction M with
  | nil => intro R h _; exact absurd rfl h
  | cons m M' ih =>
    intro R _ hR
    cases M' with
    | nil =>
      cases R with
      | nil => exact absurd rfl hR
      | cons r R'' => simp [interiorDot]
    | cons m2 M'' =>
      have hne : M'' ++ '.' :: R ≠ [] := by simp
      cases hsh : M'' ++ '.' :: R with
      | nil => exact absurd hsh hne
      | cons c v =>
        have ihres := ih R (by simp) hR
        rw [show (m :: m2 :: M'' ++ '.' :: R) = m :: m2 :: c :: v by simp [← hsh]]
        rw [show ((m2 :: M'') ++ '.' :: R) = m2 :: c :: v by simp [← hsh]] at ihres
        simp [interiorDot] at ihres ⊢
        exact Or.inr ihres

lemma decomp_of_interiorDot :
    ∀ (l : List Char), interiorDot l = true →
      ∃ M R : List Char, l = M ++ '.' :: R ∧ M ≠ [] ∧ R ≠ [] := by
  intro l
  induction l with
  | nil => intro h; simp [interiorDot] at h
  | cons a t ih =>
    cases t with
    | nil => intro h; simp [interiorDot] at h
    | cons b u =>
      cases u with
      | nil => intro h; simp [interiorDot] at h
      | cons c v =>
        intro h
        simp only [interiorDot, Bool.or_eq_true, beq_iff_eq] at h
        rcases h with hdot | hrec
        · exact ⟨[a], c :: v, by simp [hdot], by simp, by simp⟩
        · obtain ⟨M', R', heq, hM', hR'⟩ := ih hrec
          exact ⟨a :: M', R', by simp [heq], by simp, hR'⟩

lemma emailRegexTest_iff_emailShape (cs : List Char) :
    emailRegexTest cs = true ↔ EmailShape cs := by
  constructor
  · intro h
    simp only [emailRegexTest, Bool.and_eq_true, beq_iff_eq, List.all_eq_true] at h
    obtain ⟨⟨⟨hne, hhead⟩, hall⟩, hdot⟩ := h
    have hsplit : cs.takeWhile okChar ++ cs.dropWhile okChar = cs :=
      List.takeWhile_append_dropWhile okChar cs
    have hlne : cs.takeWhile okChar ≠ [] := by
      intro h0; rw [h0] at hne; simp at hne
    cases hrc : cs.dropWhile okChar with
    | nil => rw [hrc] at hhead; simp at hhead
    | cons a rest =>
      have ha : a = '@' := by rw [hrc] at hhead; simpa using hhead
      have hrest : rest = (cs.dropWhile okChar).tail := by simp [hrc]
      obtain ⟨M, R, hmr, hM, hR⟩ := decomp_of_interiorDot _ (hrest ▸ hdot)
      have hlok : ∀ c ∈ cs.takeWhile okChar, okChar c = true :=
        fun _ hc => List.mem_takeWhile_imp hc
      have hrestok : ∀ c ∈ rest, okChar c = true := fun c hc => hall c (hrest ▸ hc)
      refine ⟨cs.takeWhile okChar, M, R, ?_, hlne, hM, hR, ?_, ?_, ?_⟩
      · conv_lhs => rw [← hsplit]
        rw [hrc, ha, hmr]
      · exact fun c hc => (okChar_iff c).1 (hlok c hc)
      · exact fun c hc => (okChar_iff c).1 (hrestok c (hmr ▸ (by simp [hc])))
      · exact fun c hc => (okChar_iff c).1 (hrestok c (hmr ▸ (by simp [hc])))
  · rintro ⟨L, M, R, heq, hL, hM, hR, hokL, hokM, hokR⟩
    have hLok : ∀ c ∈ L, okChar c = true := fun c hc => (okChar_iff c).2 (hokL c hc)
    have htd := takeWhile_at_sep L (M ++ '.' :: R) hLok
    have htail : ∀ c ∈ M ++ '.' :: R, okChar c = true := by
      intro c hc
      rcases List.mem_append.1 hc with hcM | hcdR
      · exact (okChar_iff c).2 (hokM c hcM)
      · rcases List.mem_cons.1 hcdR with hcd | hcR
        · subst hcd; decide
        · exact (okChar_iff c).2 (hokR c hcR)
    simp only [emailRegexTest, heq, htd.1, htd.2, Bool.and_eq_true, beq_iff_eq,
      List.all_eq_true, List.head?_cons, List.tail_cons]
    refine ⟨⟨⟨?_, trivial⟩, htail⟩, interiorDot_of_decomp M R hM hR⟩
    cases L with
    | nil => exact absurd rfl hL
    | cons _ _ => rfl

lemma fireCycle_id (d a : Bool) (c : TypingCycle) : (fireCycle d a c).id = c.id := by
  unfold fireCycle; split_ifs <;> rfl

lemma charFireCycle_id (d : Bool) (c : TypingCycle) : (charFireCycle d c).id = c.id := by
  unfold charFireCycle; split_ifs <;> rfl

lemma abortCycle_id (c : TypingCycle) : (abortCycle c).id = c.id := rfl

lemma updId_id (cid : Nat) (f : TypingCycle → TypingCycle)
    (hf : ∀ c, (f c).id = c.id) (c : TypingCycle) : (updId cid f c).id = c.id := by
  unfold updId; split_ifs with h
  · exact hf c
  · rfl

lemma map_updId_ids (cs : List TypingCycle) (cid : Nat) (f : TypingCycle → TypingCycle)
    (hf : ∀ c, (f c).id = c.id) :
    (cs.map (updId cid f)).map TypingCycle.id = cs.map TypingCycle.id := by
  rw [List.map_map]
  induction cs with
  | nil => rfl
  | cons c t ih => simp [Function.comp, updId_id cid f hf c, ih]

lemma mem_of_length_le_one {α : Type} {l : List α} (h : l.length ≤ 1) {a b : α}
    (ha : a ∈ l) (hb : b ∈ l) : a = b := by
  cases l with
  | nil => cases ha
  | cons x t =>
    cases t with
    | nil =>
      rw [List.mem_singleton] at ha hb
      rw [ha, hb]
    | cons y u => simp at h

lemma length_le_one_of_all_eq {α : Type} {l : List α} (hnd : l.Nodup)
    (h : ∀ a ∈ l, ∀ b ∈ l, a = b) : l.length ≤ 1 := by
  cases l with
  | nil => simp
  | cons x t =>
    cases t with
    | nil => simp
    | cons y u =>
      exfalso
      have hxy : x = y := h x (by simp) y (by simp)
      rw [List.nodup_cons] at hnd
      exact hnd.1 (hxy ▸ List.mem_cons_self y u)

lemma minv_ms0 : MInv ms0 := by
  constructor <;> simp [ms0]

lemma minv_init {s : MState} (h : MInv s) (hini : s.initialized = false) :
    MInv (initState s) := by
  constructor
  · simp only [initState, List.map_append, List.map_cons, List.map_nil]
    rw [List.nodup_append]
    refine ⟨h.nodup, List.nodup_singleton _, ?_⟩
    intro a ha hb
    rw [List.mem_singleton] at hb
    obtain ⟨c, hc, hca⟩ := List.mem_map.1 ha
    have := h.bound c hc
    rw [hca, hb] at this
    exact absurd this (Nat.lt_irrefl _)
  · intro c hc
    simp only [initState] at hc ⊢
    rcases List.mem_append.1 hc with h1 | h2
    · exact Nat.lt_trans (h.bound c h1) (Nat.lt_succ_self _)
    · rw [List.mem_singleton] at h2
      rw [h2]
      exact Nat.lt_succ_self _
  · have := h.activeInit hini
    simp [initState, this]
  · intro hcontra
    simp [initState] at hcontra
  · intro c hc hrev
    simp only [initState] at hc
    rcases List.mem_append.1 hc with h1 | h2
    · have := (h.revCond c h1 hrev).1
      rw [h.activeInit hini] at this
      cases this
    · rw [List.mem_singleton] at h2
      rw [h2] at hrev
      cases hrev

lemma minv_destroy {s : MState} (h : MInv s) : MInv (destroyState s) := by
  constructor
  · cases hctl : s.ctrl with
    | none => simpa [destroyState, hctl] using h.nodup
    | some cid =>
      simp only [destroyState, hctl]
      rw [map_updId_ids _ _ _ abortCycle_id]
      exact h.nodup
  · intro c hc
    simp only [destroyState] at hc ⊢
    cases hctl : s.ctrl with
    | none => rw [hctl] at hc; exact h.bound c hc
    | some cid =>
      rw [hctl] at hc
      obtain ⟨c0, hc0, hcc⟩ := List.mem_map.1 hc
      rw [← hcc, updId_id _ _ abortCycle_id]
      exact h.bound c0 hc0
  · simp [destroyState]
  · intro _; simp [destroyState]
  · intro c hc hrev
    exfalso
    simp only [destroyState] at hc
    cases hctl : s.ctrl with
    | none =>
      rw [hctl] at hc
      have := (h.revCond c hc hrev).2.1
      rw [hctl] at this
      cases this
    | some cid =>
      rw [hctl] at hc
      obtain ⟨c0, hc0, hcc⟩ := List.mem_map.1 hc
      by_cases hid : c0.id = cid
      · rw [← hcc] at hrev
        simp only [updId, if_pos hid] at hrev
        unfold abortCycle at hrev
        by_cases hph : c0.phase = Phase.revealing
        · simp [hph] at hrev
        · rw [if_neg hph] at hrev
          exact hph hrev
      · rw [← hcc] at hrev
        simp only [updId, if_neg hid] at hrev
        have := (h.revCond c0 hc0 hrev).2.1
        rw [hctl] at this
        exact hid (Option.some_injective _ this).symm

lemma minv_set {s : MState} (h : MInv s) (b : Bool) : MInv (setDestroyed s b) :=
  ⟨h.nodup, h.bound, h.activeLen, h.activeInit, h.revCond⟩

lemma minv_fire {s : MState} (h : MInv s) (cid : Nat) : MInv (fireState s cid) := by
  constructor
  · simp only [fireState]
    rw [map_updId_ids _ _ _ (fireCycle_id _ _)]
    exact h.nodup
  · intro c hc
    simp only [fireState] at hc ⊢
    obtain ⟨c0, hc0, hcc⟩ := List.mem_map.1 hc
    rw [← hcc, updId_id _ _ (fireCycle_id _ _)]
    exact h.bound c0 hc0
  · exact h.activeLen
  · exact h.activeInit
  · intro c hc hrev
    simp only [fireState] at hc
    obtain ⟨c0, hc0, hcc⟩ := List.mem_map.1 hc
    by_cases hid : c0.id = cid
    · rw [← hcc] at hrev ⊢
      simp only [updId, if_pos hid] at hrev ⊢
      by_cases hcond : (s.destroyed || !(decide (cid ∈ s.active))) = true
      · rw [fireCycle, if_pos hcond] at hrev
        cases hrev
      · by_cases hlen : textLen c0.textIdx = 0
        · rw [fireCycle, if_neg hcond, if_pos hlen] at hrev
          cases hrev
        · have hcondf : (s.destroyed || !(decide (cid ∈ s.active))) = false := by
            cases hb : (s.destroyed || !(decide (cid ∈ s.active))) with
            | false => rfl
            | true => exact absurd hb hcond
          have hparts : s.destroyed = false ∧ cid ∈ s.active := by
            rcases Bool.or_eq_false_iff.1 hcondf with ⟨h1, h2⟩
            refine ⟨h1, of_decide_eq_true ?_⟩
            simpa using h2
          rw [fireCycle, if_neg hcond, if_neg hlen] at hrev ⊢
          refine ⟨?_, ?_, rfl⟩
          · simpa [hid] using hparts.2
          · simp only [fireState]
            rw [if_pos (by simp [hparts.1, hparts.2])]
            simp [hid]
    · rw [← hcc] at hrev ⊢
      simp only [updId, if_neg hid] at hrev ⊢
      obtain ⟨hmem, hctl, hab⟩ := h.revCond c0 hc0 hrev
      refine ⟨hmem, ?_, hab⟩
      simp only [fireState]
      by_cases hb : (!s.destroyed && decide (cid ∈ s.active)) = true
      · exfalso
        have hcidmem : cid ∈ s.active :=
          of_decide_eq_true (Bool.and_eq_true _ _ ▸ hb).2
        exact hid (mem_of_length_le_one h.activeLen hcidmem hmem).symm
      · rw [if_neg hb]
        exact hctl

lemma minv_charFire {s : MState} (h : MInv s) (cid : Nat) : MInv (charFireState s cid) := by
  constructor
  · simp only [charFireState]
    rw [map_updId_ids _ _ _ (charFireCycle_id _)]
    exact h.nodup
  · intro c hc
    simp only [charFireState] at hc ⊢
    obtain ⟨c0, hc0, hcc⟩ := List.mem_map.1 hc
    rw [← hcc, updId_id _ _ (charFireCycle_id _)]
    exact h.bound c0 hc0
  · exact h.activeLen
  · exact h.activeInit
  · intro c hc hrev
    simp only [charFireState] at hc
    obtain ⟨c0, hc0, hcc⟩ := List.mem_map.1 hc
    by_cases hid : c0.id = cid
    · rw [← hcc] at hrev ⊢
      simp only [updId, if_pos hid] at hrev ⊢
      by_cases h1 : textLen c0.textIdx ≤ c0.pos
      · rw [charFireCycle, if_pos h1] at hrev
        by_cases hd : s.destroyed = true
        · rw [if_pos hd] at hrev; cases hrev
        · rw [if_neg hd] at hrev; cases hrev
      · rw [charFireCycle, if_neg h1] at hrev ⊢
        by_cases h2 : (c0.aborted || s.destroyed) = true
        · rw [if_pos h2] at hrev; cases hrev
        · rw [if_neg h2] at hrev ⊢
          have hph : c0.phase = Phase.revealing := hrev
          obtain ⟨hmem, hctl, hab⟩ := h.revCond c0 hc0 hph
          exact ⟨hmem, hctl, hab⟩
    · rw [← hcc] at hrev ⊢
      simp only [updId, if_neg hid] at hrev ⊢
      exact h.revCond c0 hc0 hrev

lemma minv_step {s t : MState} (h : MInv s) (hs : Step s t) : MInv t := by
  cases hs with
  | initE hini => exact minv_init h hini
  | destroyE => exact minv_destroy h
  | hideE => exact minv_set h true
  | showE => exact minv_set h false
  | startE cid _ => exact minv_fire h cid
  | pauseE cid _ => exact minv_fire h cid
  | charE cid _ => exact minv_charFire h cid

lemma minv_reach {s : MState} (h : Reach ms0 s) : MInv s := by
  induction h with
  | refl => exact minv_ms0
  | tail _ hstep ih => exact minv_step ih hstep

lemma frozen_upd {s : MState} {cid p0 : Nat}
    (h : FrozenStopped cid p0 s) (cid' : Nat) (hne : cid' ≠ cid)
    (f : TypingCycle → TypingCycle) (hf : ∀ c, (f c).id = c.id) :
    ∀ c ∈ s.cycles.map (updId cid' f), c.id = cid →
      c.phase = Phase.stopped ∧ c.pos = p0 := by
  intro c hc hid
  obtain ⟨c0, hc0, hcc⟩ := List.mem_map.1 hc
  have hc0id : c0.id = cid := by
    rw [← hid, ← hcc, updId_id _ _ hf]
  have hne0 : ¬ (c0.id = cid') := fun hx => hne (hx ▸ hc0id.symm).symm
  rw [← hcc]
  simp only [updId, if_neg hne0]
  exact h.1 c0 hc0 hc0id

lemma frozen_step {s t : MState} {cid p0 : Nat}
    (h : FrozenStopped cid p0 s) (hs : Step s t) : FrozenStopped cid p0 t := by
  cases hs with
  | initE hini =>
    refine ⟨?_, Nat.lt_trans h.2 (Nat.lt_succ_self _)⟩
    intro c hc hid
    simp only [initState] at hc
    rcases List.mem_append.1 hc with h1 | h2
    · exact h.1 c h1 hid
    · rw [List.mem_singleton] at h2
      rw [h2] at hid
      exact absurd (hid ▸ h.2) (Nat.lt_irrefl _)
  | destroyE =>
    refine ⟨?_, h.2⟩
    intro c hc hid
    simp only [destroyState] at hc
    cases hctl : s.ctrl with
    | none =>
      rw [hctl] at hc
      exact h.1 c hc hid
    | some cid' =>
      rw [hctl] at hc
      obtain ⟨c0, hc0, hcc⟩ := List.mem_map.1 hc
      have hc0id : c0.id = cid := by
        rw [← hid, ← hcc, updId_id _ _ abortCycle_id]
      have hstop := h.1 c0 hc0 hc0id
      rw [← hcc]
      simp only [updId]
      split_ifs with hx
      · refine ⟨?_, hstop.2⟩
        simp only [abortCycle, hstop.1]
        simp
      · exact hstop
  | hideE => exact ⟨fun c hc hid => h.1 c hc hid, h.2⟩
  | showE => exact ⟨fun c hc hid => h.1 c hc hid, h.2⟩
  | startE cid' hp =>
    obtain ⟨c1, hc1, hc1id, hc1ph⟩ := hp
    have hne : cid' ≠ cid := by
      intro hx
      have := (h.1 c1 hc1 (hx ▸ hc1id)).1
      rw [hc1ph] at this
      cases this
    exact ⟨frozen_upd h cid' hne _ (fireCycle_id _ _), h.2⟩
  | pauseE cid' hp =>
    obtain ⟨c1, hc1, hc1id, hc1ph⟩ := hp
    have hne : cid' ≠ cid := by
      intro hx
      have := (h.1 c1 hc1 (hx ▸ hc1id)).1
      rw [hc1ph] at this
      cases this
    exact ⟨frozen_upd h cid' hne _ (fireCycle_id _ _), h.2⟩
  | charE cid' hp =>
    obtain ⟨c1, hc1, hc1id, hc1ph⟩ := hp
    have hne : cid' ≠ cid := by
      intro hx
      have := (h.1 c1 hc1 (hx ▸ hc1id)).1
      rw [hc1ph] at this
      cases this
    exact ⟨frozen_upd h cid' hne _ (charFireCycle_id _), h.2⟩

lemma frozen_reach {s t : MState} {cid p0 : Nat}
    (h : FrozenStopped cid p0 s) (hr : Reach s t) : FrozenStopped cid p0 t := by
  induction hr with
  | refl => exact h
  | tail _ hstep ih => exact frozen_step ih hstep

lemma frozen_destroy {s : MState} {c : TypingCycle} (hinv : MInv s)
    (hc : c ∈ s.cycles) (hph : c.phase = Phase.revealing) :
    FrozenStopped c.id c.pos (destroyState s) := by
  have hctl : s.ctrl = some c.id := (hinv.revCond c hc hph).2.1
  refine ⟨?_, hinv.bound c hc⟩
  intro c' hc' hid
  simp only [destroyState, hctl] at hc'
  obtain ⟨c0, hc0, hcc⟩ := List.mem_map.1 hc'
  have hc0id : c0.id = c.id := by
    rw [← hid, ← hcc, updId_id _ _ abortCycle_id]
  have hc0c : c0 = c := List.inj_on_of_nodup_map hinv.nodup hc0 hc hc0id
  rw [← hcc]
  simp only [updId, if_pos (hc0c ▸ hc0id)]
  rw [hc0c]
  simp [abortCycle, hph]

lemma list_isEmpty_false {α : Type} (l : List α) : l.isEmpty = false ↔ l ≠ [] := by
  cases l <;> simp

lemma goodListeners_init_new : GoodListeners (initFn pmNew) := by
  refine ⟨1, 2, ?_, ?_, ?_, ?_, ?_⟩ <;> rfl

lemma goodListeners_round {s : PMState} (h : GoodListeners s) :
    GoodListeners (initFn (destroyFn s)) := by
  obtain ⟨h1, h2, e1, e2, e3, e4, _⟩ := h
  refine ⟨s.nextId + 1, s.nextId + 2, ?_, ?_, ?_, ?_, ?_⟩ <;>
    simp [initFn, destroyFn, e1, e2, e3, e4]

lemma goodListeners_cyclePairs (n : Nat) :
    ∀ s : PMState, GoodListeners s → GoodListeners (cyclePairs n s) := by
  induction n with
  | zero => intro s h; exact h
  | succ k ih => intro s h; exact ih _ (goodListeners_round h)

lemma initFn_isDestroyed (s : PMState) : (initFn s).isDestroyed = s.isDestroyed := by
  unfold initFn; split_ifs <;> rfl

lemma scrollBurst_id (n : Nat) (s : ScrollState)
    (h : (s.scrollTicking || s.destroyed) = true) : scrollBurst n s = s := by
  induction n with
  | zero => rfl
  | succ k ih =>
    have hhs : handleScroll s = s := by unfold handleScroll; rw [if_pos h]
    show scrollBurst k (handleScroll s) = s
    rw [hhs]
    exact ih

/-- **C1.** For every in-progress character-reveal loop (a reachable state
holding a cycle in phase `revealing`, i.e. with a pending per-character
timeout), requesting cancellation by aborting the typing controller — as
`destroy()` does — stops character output immediately (`pos` is frozen),
clears the pending per-character timeout (phase `stopped` means no callback
of the cycle is scheduled), and the cycle never reschedules or resumes: in
every state reachable afterwards it is still `stopped` with the same
output. -/
theorem abort_stops_reveal (s : MState) (c : TypingCycle)
    (hr : Reach ms0 s) (hc : c ∈ s.cycles) (hph : c.phase = Phase.revealing) :
    (∀ c' ∈ (destroyState s).cycles, c'.id = c.id →
        c'.phase = Phase.stopped ∧ c'.pos = c.pos) ∧
    (∀ t, Reach (destroyState s) t → ∀ c' ∈ t.cycles, c'.id = c.id →
        c'.phase = Phase.stopped ∧ c'.pos = c.pos) := by
  have hinv := minv_reach hr
  have hfz := frozen_destroy hinv hc hph
  exact ⟨hfz.1, fun t ht => (frozen_reach hfz ht).1⟩

/-- Witness for `abort_stops_reveal`: `init(); startFire` reaches a state
whose single cycle (id 0) is mid-reveal with one character out; destroying
there stops it for good. -/
theorem abort_stops_reveal_witness :
    (∀ c' ∈ (destroyState (fireState (initState ms0) 0)).cycles, c'.id = 0 →
        c'.phase = Phase.stopped ∧ c'.pos = 1) ∧
    (∀ t, Reach (destroyState (fireState (initState ms0) 0)) t →
        ∀ c' ∈ t.cycles, c'.id = 0 →
          c'.phase = Phase.stopped ∧ c'.pos = 1) :=
  abort_stops_reveal (fireState (initState ms0) 0)
    ⟨0, 0, 1, false, Phase.revealing⟩
    (Relation.ReflTransGen.tail
      (Relation.ReflTransGen.single (Step.initE ms0 rfl))
      (Step.startE (initState ms0) 0 (by decide)))
    (by decide) rfl

/-- **C2.** After the first `init()` and any number `n ≥ 0` of
`destroy(); init()` pairs, exactly one scroll listener and exactly one
resize listener registered by the controller are active on the window. -/
theorem listeners_exactly_one (n : Nat) :
    (cyclePairs n (initFn pmNew)).windowScroll.length = 1 ∧
    (cyclePairs n (initFn pmNew)).windowResize.length = 1 := by
  obtain ⟨h1, h2, _, _, e3, e4, _⟩ :=
    goodListeners_cyclePairs n _ goodListeners_init_new
  rw [e3, e4]
  exact ⟨rfl, rfl⟩

/-- **C3.** For every viewport width and device pixel ratio, the particle
count of `createParticles()` under the default configuration lies within
`[minCount, maxCount] = [20, 100]`, and equals: `max(minCount, 50/2) = 25`
when `devicePixelRatio < 2 ∧ width < 1024`; `min(maxCount, 50·1.5) = 75`
when (not low-end and) `width > 1920`; and the base count `50` otherwise.
It is a function of exactly these two inputs. -/
theorem createParticles_count_spec (w : ℕ) (dpr : ℚ) :
    particlesConfig.minCount ≤ particleCount particlesConfig w dpr ∧
    particleCount particlesConfig w dpr ≤ particlesConfig.maxCount ∧
    particleCount particlesConfig w dpr =
      (if dpr < 2 ∧ w < 1024 then 25 else if w > 1920 then 75 else 50) := by
  simp only [particleCount, particlesConfig]
  split_ifs <;> norm_num

/-- **C4.** `validateForm` succeeds iff the name, email and message fields
are all present and non-empty after trimming and the trimmed email has the
shape `local-part@domain.tld` (no whitespace, single `@`, dot-separated
non-empty domain tail); in particular it fails on an empty name, empty
email, empty message, and on `"bob@"` and `"bob.com"`, and succeeds on
name `"A"`, email `"a@b.co"`, message `"hi"`. -/
theorem validateForm_spec :
    (∀ n e m : Option String, validateForm n e m = true ↔
      (FieldPresent n ∧ FieldPresent m ∧
        ∃ es : String, e = some es ∧ jsTrim es.data ≠ [] ∧ EmailShape (jsTrim es.data))) ∧
    validateForm (some "") (some "a@b.co") (some "hi") = false ∧
    validateForm (some "A") (some "") (some "hi") = false ∧
    validateForm (some "A") (some "a@b.co") (some "") = false ∧
    validateForm (some "A") (some "bob@") (some "hi") = false ∧
    validateForm (some "A") (some "bob.com") (some "hi") = false ∧
    validateForm (some "A") (some "a@b.co") (some "hi") = true := by
  refine ⟨?_, by decide, by decide, by decide, by decide, by decide, by decide⟩
  intro n e m
  cases n with
  | none => simp [validateForm, FieldPresent]
  | some ns =>
    cases e with
    | none =>
      simp only [validateForm, Option.map_some', Option.map_none']
      simp
    | some es =>
      cases m with
      | none =>
        simp only [validateForm, Option.map_some', Option.map_none']
        simp [FieldPresent]
      | some ms =>
        simp only [validateForm, Option.map_some']
        constructor
        · intro h
          by_cases hn : (jsTrim ns.data).isEmpty = true
          · rw [if_pos (by simp [hn])] at h; cases h
          · by_cases he : (jsTrim es.data).isEmpty = true
            · rw [if_pos (by simp [he])] at h; cases h
            · by_cases hm : (jsTrim ms.data).isEmpty = true
              · rw [if_pos (by simp [hm])] at h; cases h
              · rw [if_neg (by simp [hn, he, hm])] at h
                refine ⟨⟨ns, rfl, ?_⟩, ⟨ms, rfl, ?_⟩, es, rfl, ?_,
                  (emailRegexTest_iff_emailShape _).1 h⟩
                · exact (list_isEmpty_false _).1 (Bool.eq_false_iff.2 hn)
                · exact (list_isEmpty_false _).1 (Bool.eq_false_iff.2 hm)
                · exact (list_isEmpty_false _).1 (Bool.eq_false_iff.2 he)
        · rintro ⟨⟨ns', hns', hnne⟩, ⟨ms', hms', hmne⟩, es', hes', hene, hshape⟩
          injection hns' with hns''
          injection hms' with hms''
          injection hes' with hes''
          subst hns''; subst hms''; subst hes''
          rw [if_neg]
          · exact (emailRegexTest_iff_emailShape _).2 hshape
          · simp [(list_isEmpty_false _).2 hnne, (list_isEmpty_false _).2 hmne,
              (list_isEmpty_false _).2 hene]

/-- **C5.** In every reachable state, at most one character-reveal loop is
in flight (at most one cycle in phase `revealing`) and the
active-animation set holds at most one cycle: a cycle is added only by
`init` (guarded by `initialized`), reveals run strictly sequentially, and a
superseded cycle stops itself once its id leaves the set. -/
theorem typing_single_flight (s : MState) (hr : Reach ms0 s) :
    (s.cycles.filter (fun c => c.phase == Phase.revealing)).length ≤ 1 ∧
    s.active.length ≤ 1 := by
  have hinv := minv_reach hr
  refine ⟨?_, hinv.activeLen⟩
  apply length_le_one_of_all_eq ((hinv.nodup.of_map).filter _)
  intro a ha b hb
  rw [List.mem_filter] at ha hb
  have hpa : a.phase = Phase.revealing := by simpa using ha.2
  have hpb : b.phase = Phase.revealing := by simpa using hb.2
  have hma := (hinv.revCond a ha.1 hpa).1
  have hmb := (hinv.revCond b hb.1 hpb).1
  exact List.inj_on_of_nodup_map hinv.nodup ha.1 hb.1
    (mem_of_length_le_one hinv.activeLen hma hmb)

/-- Witness for `typing_single_flight` at the state reached by one
`init()`. -/
theorem typing_single_flight_witness :
    ((initState ms0).cycles.filter (fun c => c.phase == Phase.revealing)).length ≤ 1 ∧
    (initState ms0).active.length ≤ 1 :=
  typing_single_flight (initState ms0)
    (Relation.ReflTransGen.single (Step.initE ms0 rfl))

/-- **C6.** Any burst of scroll events delivered within one rendered frame
causes at most one DOM-update pass at the frame boundary; bursts arriving
while `scrollTicking` is set, or after the controller is destroyed, do no
DOM work at all (the state is unchanged, so nothing is queued). -/
theorem scroll_coalescing (n : Nat) (s : ScrollState) (h0 : s.rafQueue = 0) :
    (runFrame (scrollBurst n s)).domPasses ≤ s.domPasses + 1 ∧
    (s.destroyed = true →
      (runFrame (scrollBurst n s)).domPasses = s.domPasses ∧ scrollBurst n s = s) ∧
    (s.scrollTicking = true → scrollBurst n s = s) := by
  refine ⟨?_, ?_, ?_⟩
  · cases n with
    | zero => simp [scrollBurst, runFrame, h0]
    | succ k =>
      by_cases ht : (s.scrollTicking || s.destroyed) = true
      · have : scrollBurst (k + 1) s = s := scrollBurst_id (k + 1) s ht
        rw [this]
        simp [runFrame, h0]
      · have hhs : handleScroll s = { s with scrollTicking := true, rafQueue := s.rafQueue + 1 } := by
          unfold handleScroll; rw [if_neg ht]
        have hrest : scrollBurst (k + 1) s =
            { s with scrollTicking := true, rafQueue := s.rafQueue + 1 } := by
          show scrollBurst k (handleScroll s) = _
          rw [hhs]
          exact scrollBurst_id k _ (by simp)
        rw [hrest]
        simp [runFrame, h0]
  · intro hd
    have hb : scrollBurst n s = s := scrollBurst_id n s (by simp [hd])
    rw [hb]
    exact ⟨by simp [runFrame, h0], rfl⟩
  · intro ht
    exact scrollBurst_id n s (by simp [ht])

/-- Witness for `scroll_coalescing`: a burst of three scroll events from an
idle live state yields exactly one queued pass. -/
theorem scroll_coalescing_witness :
    (runFrame (scrollBurst 3 ⟨false, false, 0, 0⟩)).domPasses ≤
      (⟨false, false, 0, 0⟩ : ScrollState).domPasses + 1 ∧
    ((⟨false, false, 0, 0⟩ : ScrollState).destroyed = true →
      (runFrame (scrollBurst 3 ⟨false, false, 0, 0⟩)).domPasses =
        (⟨false, false, 0, 0⟩ : ScrollState).domPasses ∧
      scrollBurst 3 ⟨false, false, 0, 0⟩ = ⟨false, false, 0, 0⟩) ∧
    ((⟨false, false, 0, 0⟩ : ScrollState).scrollTicking = true →
      scrollBurst 3 ⟨false, false, 0, 0⟩ = ⟨false, false, 0, 0⟩) :=
  scroll_coalescing 3 ⟨false, false, 0, 0⟩ rfl

/-- **C7.** No public entry point propagates an exception: `init()` wraps
its whole setup sequence in `try/catch` and returns normally whatever its
sub-steps do; the submit handler catches around the simulated submission;
`getElement` returns `null` (no throw) for a missing element; and
`createParticles` skips its work when `bgAnimation` is absent. -/
theorem entry_points_no_throw :
    (∀ steps : List (Except String Unit), ∃ b : Bool, initEntry steps = Except.ok b) ∧
    (∀ (valid : Bool) (send : Except String Unit),
      ∃ b : Bool, submitEntry valid send = Except.ok b) ∧
    (∀ id : String, (getElement (fun _ => none) [] id).1 = none) ∧
    (∀ (w : Nat) (dpr : ℚ), createParticlesEntry none w dpr = none) := by
  refine ⟨?_, ?_, ?_, ?_⟩
  · intro steps
    unfold initEntry
    cases runInitSteps steps with
    | ok _ => exact ⟨true, rfl⟩
    | error _ => exact ⟨false, rfl⟩
  · intro valid send
    cases valid with
    | false => exact ⟨false, rfl⟩
    | true =>
      cases send with
      | ok _ => exact ⟨true, rfl⟩
      | error _ => exact ⟨false, rfl⟩
  · intro id
    rfl
  · intro w dpr
    rfl

/-- **C8.** `destroy()` establishes its postcondition from any prior state
with well-formed listener lists: the destroyed flag is set, the typing
controller is aborted (recorded among the aborted controllers) and its
reference cleared, the active-animation set is empty, the controller's
scroll/resize listeners are gone from the window, the element cache is
empty, the initialized flag is reset — and a second `destroy()` changes
nothing. -/
theorem destroy_postcondition_idempotent (s : PMState)
    (h1 : s.windowScroll.Nodup) (h2 : s.windowResize.Nodup) :
    (destroyFn s).isDestroyed = true ∧
    (destroyFn s).typingController = none ∧
    (∀ cid, s.typingController = some cid → cid ∈ (destroyFn s).abortedControllers) ∧
    (destroyFn s).activeAnimations = [] ∧
    (destroyFn s).elements = [] ∧
    (destroyFn s).isInitialized = false ∧
    (∀ hd, s.handlerScroll = some hd → hd ∉ (destroyFn s).windowScroll) ∧
    (∀ hd, s.handlerResize = some hd → hd ∉ (destroyFn s).windowResize) ∧
    destroyFn (destroyFn s) = destroyFn s := by
  refine ⟨rfl, rfl, ?_, rfl, rfl, rfl, ?_, ?_, ?_⟩
  · intro cid hcid
    simp [destroyFn, hcid]
  · intro hd hhd
    simp only [destroyFn, hhd]
    intro hm
    exact ((List.Nodup.mem_erase_iff h1).1 hm).1 rfl
  · intro hd hhd
    simp only [destroyFn, hhd]
    intro hm
    exact ((List.Nodup.mem_erase_iff h2).1 hm).1 rfl
  · have hws : ∀ hd, s.handlerScroll = some hd →
        (s.windowScroll.erase hd).erase hd = s.windowScroll.erase hd := by
      intro hd _
      exact List.erase_of_not_mem (fun hm => ((List.Nodup.mem_erase_iff h1).1 hm).1 rfl)
    have hwr : ∀ hd, s.handlerResize = some hd →
        (s.windowResize.erase hd).erase hd = s.windowResize.erase hd := by
      intro hd _
      exact List.erase_of_not_mem (fun hm => ((List.Nodup.mem_erase_iff h2).1 hm).1 rfl)
    cases hsc : s.handlerScroll with
    | none => cases hrz : s.handlerResize with
      | none => simp [destroyFn, hsc, hrz]
      | some hd2 => simp [destroyFn, hsc, hrz, hwr hd2 hrz]
    | some hd1 => cases hrz : s.handlerResize with
      | none => simp [destroyFn, hsc, hrz, hws hd1 hsc]
      | some hd2 => simp [destroyFn, hsc, hrz, hws hd1 hsc, hwr hd2 hrz]

/-- Witness for `destroy_postcondition_idempotent` at the state reached by
a first `init()` (whose listener lists are singletons, hence nodup). -/
theorem destroy_postcondition_idempotent_witness :
    (destroyFn (initFn pmNew)).isDestroyed = true ∧
    (destroyFn (initFn pmNew)).typingController = none ∧
    (∀ cid, (initFn pmNew).typingController = some cid →
      cid ∈ (destroyFn (initFn pmNew)).abortedControllers) ∧
    (destroyFn (initFn pmNew)).activeAnimations = [] ∧
    (destroyFn (initFn pmNew)).elements = [] ∧
    (destroyFn (initFn pmNew)).isInitialized = false ∧
    (∀ hd, (initFn pmNew).handlerScroll = some hd →
      hd ∉ (destroyFn (initFn pmNew)).windowScroll) ∧
    (∀ hd, (initFn pmNew).handlerResize = some hd →
      hd ∉ (destroyFn (initFn pmNew)).windowResize) ∧
    destroyFn (destroyFn (initFn pmNew)) = destroyFn (initFn pmNew) :=
  destroy_postcondition_idempotent (initFn pmNew) (by decide) (by decide)

/-- **C9.** `init()` on an already-initialized controller is a pure no-op:
it warns and returns before touching any state, listener or DOM. -/
theorem init_noop_when_initialized (s : PMState) (h : s.isInitialized = true) :
    initFn s = s := by
  simp [initFn, h]

/-- Witness for `init_noop_when_initialized`: a second `init()` right after
the first changes nothing. -/
theorem init_noop_when_initialized_witness :
    initFn (initFn pmNew) = initFn pmNew :=
  init_noop_when_initialized (initFn pmNew) rfl

/-- **C10.** `init()` never clears the destroyed flag: after
`destroy(); init()` the controller is re-initialized but `isDestroyed` is
still `true` (`init` preserves the flag; only the `visibilitychange`
handler resets it), so `handleScroll` stays a no-op and every
character-reveal or cycle-(re)start step only stops the cycle without
emitting a character. -/
theorem init_keeps_destroyed_flag (s : PMState) (sc : ScrollState)
    (c : TypingCycle) (b : Bool) :
    (initFn (destroyFn s)).isDestroyed = true ∧
    (initFn (destroyFn s)).isInitialized = true ∧
    (initFn s).isDestroyed = s.isDestroyed ∧
    (destroyFn s).isDestroyed = true ∧
    (visFn s false).isDestroyed = false ∧
    (visFn s true).isDestroyed = true ∧
    handleScroll { sc with destroyed := true } = { sc with destroyed := true } ∧
    charFireCycle true c = { c with phase := Phase.stopped } ∧
    fireCycle true b c = { c with phase := Phase.stopped } := by
  refine ⟨?_, ?_, initFn_isDestroyed s, rfl, rfl, rfl, ?_, ?_, ?_⟩
  · rw [initFn_isDestroyed]
    rfl
  · simp [initFn, destroyFn]
  · unfold handleScroll
    rw [if_pos (by simp)]
  · unfold charFireCycle
    split_ifs with hx hy hz <;> first | rfl | simp_all
  · unfold fireCycle
    rw [if_pos (by simp)]
